import Mathlib

/-!
Verification of the memalloc allocation primitives (src/lib.rs).

The library exposes three operations over raw typed memory blocks:
`typed_alloc`, `typed_realloc` and `typed_dealloc`, all implemented on top
of `Vec<T>`.  We give a shallow embedding: the allocator heap is an
association list from block start addresses to the block contents, one slot
per element of `T`, each slot an `Option α` (`none` = uninitialized).
A `Vec` is modelled by its three raw parts (pointer, logical length,
capacity), exactly the data `Vec::from_raw_parts` consumes.  The `Vec`
methods used by the source are modelled after their documented stable-Rust
semantics: `with_capacity n` reserves a fresh block of `n` slots;
`reserve_exact additional` does nothing when `capacity - len ≥ additional`
and otherwise relocates to a block of exactly `len + additional` slots,
copying the old block's contents; `shrink_to_fit` does nothing when
`capacity ≤ len` and otherwise relocates to a block of exactly `len` slots,
keeping the first `len` slots; dropping a `Vec` runs the element destructor
on its first `len` slots and releases the block.  Allocation in the model
always succeeds (the library aborts the process on OOM, so no failure is
ever observable by a caller).
-/

set_option autoImplicit false

namespace Memalloc

variable {α : Type}

/-- The allocator heap: live blocks, keyed by start address.  A block's
contents is one `Option α` per element slot (`none` = uninitialized). -/
abbrev Heap (α : Type) := List (Nat × List (Option α))

/-- Look up the block starting at address `p`. -/
def hfind (p : Nat) : Heap α → Option (List (Option α))
  | [] => none
  | (q, d) :: t => if p = q then some d else hfind p t

/-- Remove the block starting at address `p`. -/
def hremove (p : Nat) : Heap α → Heap α
  | [] => []
  | (q, d) :: t => if q = p then hremove p t else (q, d) :: hremove p t

/-- Replace the contents of the block starting at address `p`. -/
def hupdate (p : Nat) (d : List (Option α)) : Heap α → Heap α
  | [] => []
  | (q, e) :: t => if q = p then (p, d) :: t else (q, e) :: hupdate p d t

/-- One past the largest address covered by any live block. -/
def maxEnd (h : Heap α) : Nat :=
  h.foldr (fun q acc => max (q.1 + q.2.length) acc) 0

/-- A fresh, never-null address for a new block. -/
def freshAddr (h : Heap α) : Nat := maxEnd h + 1

/-- Contents of a block after its storage is resized to `n` slots by the raw
allocator: the first `min n old` slots are copied verbatim (raw bytes, no
element semantics), any new tail slots are uninitialized. -/
def resize_data (d : List (Option α)) (n : Nat) : List (Option α) :=
  d.take n ++ List.replicate (n - d.length) none

/-- The raw parts of a `Vec<T>`: start pointer, logical length, capacity. -/
structure Vec (α : Type) where
  ptr : Nat
  len : Nat
  cap : Nat
deriving DecidableEq, Repr

/-- Model of `Vec::with_capacity(size)`: reserve a fresh block of exactly
`size` uninitialized slots; the vector has logical length 0. -/
def Vec.with_capacity (size : Nat) (h : Heap α) : Vec α × Heap α :=
  let a := freshAddr h
  (⟨a, 0, size⟩, (a, List.replicate size none) :: h)

/-- Model of `Vec::from_raw_parts(ptr, len, cap)`: reassemble a vector from
its raw parts, taking ownership of the existing region. -/
def Vec.from_raw_parts (p len cap : Nat) : Vec α := ⟨p, len, cap⟩

/-- Model of `Vec::reserve_exact(additional)`: nothing happens when the
spare capacity `cap - len` already covers `additional`; otherwise the
storage is grown to exactly `len + additional` slots, relocating the block
and copying its contents.  Returns `none` only when the vector's pointer is
not a live block (undefined behavior in the source). -/
def Vec.reserve_exact (v : Vec α) (additional : Nat) (h : Heap α) :
    Option (Vec α × Heap α) :=
  if additional ≤ v.cap - v.len then some (v, h)
  else
    match hfind v.ptr h with
    | none => none
    | some d =>
      let newCap := v.len + additional
      let a := freshAddr h
      some (⟨a, v.len, newCap⟩, (a, resize_data d newCap) :: hremove v.ptr h)

/-- Model of `Vec::shrink_to_fit()`: nothing happens when `cap ≤ len`;
otherwise the storage is shrunk to exactly `len` slots, keeping the first
`len` slots.  Returns `none` only when the vector's pointer is not a live
block (undefined behavior in the source). -/
def Vec.shrink_to_fit (v : Vec α) (h : Heap α) : Option (Vec α × Heap α) :=
  if v.cap ≤ v.len then some (v, h)
  else
    match hfind v.ptr h with
    | none => none
    | some d =>
      let a := freshAddr h
      some (⟨a, v.len, v.len⟩, (a, resize_data d v.len) :: hremove v.ptr h)

/-- Model of a `Vec` going out of scope: the element destructor runs on the
first `len` slots and the block is released.  Returns the new heap and the
number of element destructors that ran. -/
def Vec.drop (v : Vec α) (h : Heap α) : Heap α × Nat :=
  (hremove v.ptr h, v.len)

/-- Model of `ptr_from_vec`: take the vector's start pointer and
`mem::forget` the vector, so its destructor never runs and ownership of the
block passes to the returned pointer.  The heap is untouched. -/
def ptr_from_vec (vh : Vec α × Heap α) : Nat × Heap α :=
  (vh.1.ptr, vh.2)

/-- Model of `typed_alloc<T>(size)`: `ptr_from_vec(Vec::with_capacity(size))`. -/
def typed_alloc (size : Nat) (h : Heap α) : Nat × Heap α :=
  ptr_from_vec (Vec.with_capacity size h)

/-- Model of `typed_realloc<T>(ptr, old_size, new_size)`: shrink via
`from_raw_parts(ptr, new_size, old_size)` + `shrink_to_fit`, grow via
`from_raw_parts(ptr, 0, old_size)` + `reserve_exact(new_size - old_size)`,
and return `ptr` unchanged when the sizes are equal. -/
def typed_realloc (p old_size new_size : Nat) (h : Heap α) :
    Option (Nat × Heap α) :=
  if old_size > new_size then
    (Vec.shrink_to_fit (Vec.from_raw_parts p new_size old_size) h).map ptr_from_vec
  else if new_size > old_size then
    let additional := new_size - old_size
    (Vec.reserve_exact (Vec.from_raw_parts p 0 old_size) additional h).map ptr_from_vec
  else
    some (p, h)

/-- Model of `typed_dealloc<T>(ptr, old_size)`:
`Vec::from_raw_parts(ptr, 0, old_size)` goes out of scope at once.  Returns
the new heap and the number of element destructors that ran. -/
def typed_dealloc (p old_size : Nat) (h : Heap α) : Heap α × Nat :=
  Vec.drop (Vec.from_raw_parts p 0 old_size) h

/-- Model of `ptr::write(ptr.offset(i), v)` from the crate's tests: store
`v` in slot `i` of the block starting at `p`.  `none` when the slot does
not exist. -/
def ptr_write (h : Heap α) (p i : Nat) (v : α) : Option (Heap α) :=
  match hfind p h with
  | none => none
  | some d => if i < d.length then some (hupdate p (d.set i (some v)) h) else none

/-- Model of `ptr::read(ptr.offset(i))` from the crate's tests: the contents
of slot `i` of the block starting at `p` (`some none` = uninitialized,
outer `none` = no such slot). -/
def ptr_read (h : Heap α) (p i : Nat) : Option (Option α) :=
  match hfind p h with
  | none => none
  | some d => d[i]?

/-- Capacity in elements of the live block starting at `p`. -/
def capacity (h : Heap α) (p : Nat) : Option Nat :=
  (hfind p h).map List.length

/-- The public functions exported by src/lib.rs (its `pub fn` items). -/
def pub_fns : List String := ["typed_alloc", "typed_realloc", "typed_dealloc"]

/-- The commented-out `empty` of src/lib.rs: `1 as *mut u8`, a fixed
sentinel address backed by no block. -/
def empty : Nat := 1

/-! Basic facts about the heap operations. -/

theorem addr_lt_freshAddr {h : Heap α} {q : Nat × List (Option α)}
    (hq : q ∈ h) : q.1 < freshAddr h := by
  induction h with
  | nil => cases hq
  | cons e t ih =>
    rcases List.mem_cons.mp hq with hq | hq
    · subst hq
      have : q.1 ≤ q.1 + q.2.length := Nat.le_add_right _ _
      simp only [freshAddr, maxEnd, List.foldr_cons]
      omega
    · have h1 := ih hq
      simp only [freshAddr, maxEnd, List.foldr_cons] at h1 ⊢
      omega

theorem hfind_eq_none_of_forall {h : Heap α} {p : Nat}
    (hp : ∀ q ∈ h, q.1 ≠ p) : hfind p h = none := by
  induction h with
  | nil => rfl
  | cons e t ih =>
    have h1 : e.1 ≠ p := hp e (by simp)
    simp only [hfind]
    rw [if_neg (fun hc => h1 hc.symm)]
    exact ih (fun q hq => hp q (List.mem_cons_of_mem _ hq))

theorem hfind_freshAddr (h : Heap α) : hfind (freshAddr h) h = none :=
  hfind_eq_none_of_forall (fun q hq => Nat.ne_of_lt (addr_lt_freshAddr hq))

theorem hremove_eq_self_of_forall {h : Heap α} {p : Nat}
    (hp : ∀ q ∈ h, q.1 ≠ p) : hremove p h = h := by
  induction h with
  | nil => rfl
  | cons e t ih =>
    have h1 : e.1 ≠ p := hp e (by simp)
    simp only [hremove]
    rw [if_neg h1, ih (fun q hq => hp q (List.mem_cons_of_mem _ hq))]

theorem hremove_freshAddr (h : Heap α) : hremove (freshAddr h) h = h :=
  hremove_eq_self_of_forall (fun q hq => Nat.ne_of_lt (addr_lt_freshAddr hq))

theorem hfind_cons_self (a : Nat) (d : List (Option α)) (t : Heap α) :
    hfind a ((a, d) :: t) = some d := by
  simp [hfind]

theorem hfind_cons_ne (a q : Nat) (d : List (Option α)) (t : Heap α)
    (hne : q ≠ a) : hfind q ((a, d) :: t) = hfind q t := by
  simp [hfind, hne]

theorem freshAddr_ne_zero (h : Heap α) : freshAddr h ≠ 0 :=
  Nat.succ_ne_zero _

theorem resize_data_length (d : List (Option α)) (n : Nat) :
    (resize_data d n).length = n := by
  simp [resize_data]
  omega

theorem resize_data_getElem (d : List (Option α)) {n i : Nat}
    (hi : i < n) (hid : i < d.length) : (resize_data d n)[i]? = d[i]? := by
  have h1 : i < (List.take n d).length := by
    rw [List.length_take]
    exact lt_min_iff.mpr ⟨hi, hid⟩
  unfold resize_data
  rw [List.getElem?_append, if_pos h1, List.getElem?_take, if_pos hi]

/-! The claims. -/

/-- C3: `reallocate(ptr, s, s)` returns exactly the same pointer and leaves
the heap untouched: the equal-size branch of `typed_realloc` constructs no
`Vec`, makes no reserve or release call, and mutates no memory. -/
theorem typed_realloc_eq_size_noop (p s : Nat) (h : Heap α) :
    typed_realloc p s s h = some (p, h) := by
  simp [typed_realloc]

/-- C9: the equal-size branch of `typed_realloc` is taken before any buffer
reconstruction, so even at `old_size = new_size = 0` (a size the spec
declares undefined) the call is total and returns `ptr` unchanged with no
allocator interaction. -/
theorem typed_realloc_zero_zero_total (p : Nat) (h : Heap α) :
    typed_realloc p 0 0 h = some (p, h) := by
  simp [typed_realloc]

/-- C1: the grow path does NOT produce a block of capacity `new_size`.
Growing an 8-element block to 16 is a no-op: `reserve_exact(16 - 8)` on a
vector with `len = 0` and `cap = 8` already has the 8 spare slots it was
asked for, so the returned pointer still heads a block of capacity 8,
not 16, contradicting the claim (and the function's own documentation). -/
theorem typed_realloc_grow_capacity_shortfall :
    typed_realloc 1 8 16 [(1, List.replicate 8 (none : Option Nat))]
      = some (1, [(1, List.replicate 8 none)])
    ∧ capacity [(1, List.replicate 8 (none : Option Nat))] 1 = some 8
    ∧ (8 : Nat) ≠ 16 := by
  decide

/-- C2: growing round-trip: reallocating a live `n`-element block to
`m > n` elements succeeds and every slot at offset `i < n` reads exactly as
it did before the call (written values survive, at the same offsets). -/
theorem typed_realloc_grow_preserves_prefix (p n m : Nat) (h : Heap α)
    (d : List (Option α)) (hd : hfind p h = some d) (hlen : d.length = n)
    (hnm : n < m) :
    ∃ p2 h2, typed_realloc p n m h = some (p2, h2)
      ∧ ∀ i, i < n → ptr_read h2 p2 i = ptr_read h p i := by
  have hng : ¬ n > m := by omega
  by_cases hc : m - n ≤ n
  · refine ⟨p, h, ?_, ?_⟩
    · simp [typed_realloc, hng, hnm, Vec.reserve_exact, Vec.from_raw_parts,
        ptr_from_vec, hc]
    · intro i _
      rfl
  · refine ⟨freshAddr h, (freshAddr h, resize_data d (m - n)) :: hremove p h,
      ?_, ?_⟩
    · simp [typed_realloc, hng, hnm, Vec.reserve_exact, Vec.from_raw_parts,
        ptr_from_vec, hc, hd]
    · intro i hi
      have hin : i < d.length := by omega
      simp [ptr_read, hfind, hd]
      exact resize_data_getElem d (by omega) hin

/-- C2 witness: growing a 1-element block holding `5` to 3 elements keeps
`5` readable at offset 0. -/
theorem typed_realloc_grow_preserves_prefix_witness :
    hfind 1 [(1, [some (5 : Nat)])] = some [some 5]
    ∧ (∃ p2 h2, typed_realloc 1 1 3 [(1, [some (5 : Nat)])] = some (p2, h2)
        ∧ ∀ i, i < 1 → ptr_read h2 p2 i = ptr_read [(1, [some (5 : Nat)])] 1 i) :=
  ⟨by decide,
    typed_realloc_grow_preserves_prefix 1 1 3 [(1, [some 5])] [some 5]
      (by decide) (by decide) (by decide)⟩

/-- C4: shrinking a live `n`-element block to `1 ≤ m < n` elements performs
an exact-fit shrink: the call succeeds, the returned pointer heads a block
of capacity exactly `m`, and every slot at offset `i < m` reads exactly as
it did before the call. -/
theorem typed_realloc_shrink_exact_fit (p n m : Nat) (h : Heap α)
    (d : List (Option α)) (hd : hfind p h = some d) (hlen : d.length = n)
    (hm : 1 ≤ m) (hmn : m < n) :
    ∃ p2 h2, typed_realloc p n m h = some (p2, h2)
      ∧ capacity h2 p2 = some m
      ∧ ∀ i, i < m → ptr_read h2 p2 i = ptr_read h p i := by
  have hg : n > m := hmn
  have hns : ¬ n ≤ m := by omega
  refine ⟨freshAddr h, (freshAddr h, resize_data d m) :: hremove p h,
    ?_, ?_, ?_⟩
  · simp [typed_realloc, hg, Vec.shrink_to_fit, Vec.from_raw_parts,
      ptr_from_vec, hns, hd]
  · simp [capacity, hfind, resize_data_length]
  · intro i hi
    simp [ptr_read, hfind, hd]
    exact resize_data_getElem d hi (by omega)

/-- C4 witness: shrinking a 2-element block holding `4, 6` to 1 element
yields capacity exactly 1 with `4` still readable at offset 0. -/
theorem typed_realloc_shrink_exact_fit_witness :
    hfind 1 [(1, [some (4 : Nat), some 6])] = some [some 4, some 6]
    ∧ (∃ p2 h2,
        typed_realloc 1 2 1 [(1, [some (4 : Nat), some 6])] = some (p2, h2)
        ∧ capacity h2 p2 = some 1
        ∧ ∀ i, i < 1 →
            ptr_read h2 p2 i = ptr_read [(1, [some (4 : Nat), some 6])] 1 i) :=
  ⟨by decide,
    typed_realloc_shrink_exact_fit 1 2 1 [(1, [some 4, some 6])]
      [some 4, some 6] (by decide) (by decide) (by decide) (by decide)⟩

/-- C5: `typed_alloc(size)` with `size ≥ 1` returns a non-null pointer to a
freshly reserved block of exactly `size` uninitialized slots (a
`Vec::with_capacity(size)` of logical length 0, disarmed by
`ptr_from_vec`); no existing block is touched; every slot `i < size` is
writable, the written value reads back at `i`, and every other slot
`j < size` still reads as uninitialized (no aliasing between offsets). -/
theorem typed_alloc_spec (size : Nat) (h : Heap α) (hs : 1 ≤ size) :
    (typed_alloc size h).1 ≠ 0
    ∧ hfind (typed_alloc size h).1 h = none
    ∧ hfind (typed_alloc size h).1 (typed_alloc size h).2
        = some (List.replicate size none)
    ∧ (∀ q, q ≠ (typed_alloc size h).1 →
        hfind q (typed_alloc size h).2 = hfind q h)
    ∧ ∀ i v, i < size →
        ptr_write (typed_alloc size h).2 (typed_alloc size h).1 i v
          = some (((typed_alloc size h).1,
              (List.replicate size (none : Option α)).set i (some v)) :: h)
        ∧ ptr_read (((typed_alloc size h).1,
              (List.replicate size (none : Option α)).set i (some v)) :: h)
            (typed_alloc size h).1 i = some (some v)
        ∧ ∀ j, j < size → j ≠ i →
            ptr_read (((typed_alloc size h).1,
                (List.replicate size (none : Option α)).set i (some v)) :: h)
              (typed_alloc size h).1 j = some none := by
  refine ⟨?_, ?_, ?_, ?_, ?_⟩
  · simp [typed_alloc, ptr_from_vec, Vec.with_capacity, freshAddr]
  · simp [typed_alloc, ptr_from_vec, Vec.with_capacity, hfind_freshAddr]
  · simp [typed_alloc, ptr_from_vec, Vec.with_capacity, hfind]
  · intro q hq
    simp only [typed_alloc, ptr_from_vec, Vec.with_capacity] at hq ⊢
    exact hfind_cons_ne _ _ _ _ hq
  · intro i v hi
    refine ⟨?_, ?_, ?_⟩
    · simp [typed_alloc, ptr_from_vec, Vec.with_capacity, ptr_write, hfind,
        hupdate, hi]
    · simp [typed_alloc, ptr_from_vec, Vec.with_capacity, ptr_read, hfind,
        List.getElem?_set, hi]
    · intro j hj hne
      simp [typed_alloc, ptr_from_vec, Vec.with_capacity, ptr_read, hfind,
        List.getElem?_set, List.getElem?_replicate, hj, Ne.symm hne]

/-- C5 witness: allocating 2 slots in the empty heap, then writing `7` at
offset 0, reads back `7` at offset 0 and uninitialized at offset 1. -/
theorem typed_alloc_spec_witness :
    (1 : Nat) ≤ 2
    ∧ ((typed_alloc 2 ([] : Heap Nat)).1 ≠ 0
      ∧ hfind (typed_alloc 2 ([] : Heap Nat)).1 ([] : Heap Nat) = none
      ∧ hfind (typed_alloc 2 ([] : Heap Nat)).1 (typed_alloc 2 ([] : Heap Nat)).2
          = some (List.replicate 2 none)
      ∧ (∀ q, q ≠ (typed_alloc 2 ([] : Heap Nat)).1 →
          hfind q (typed_alloc 2 ([] : Heap Nat)).2 = hfind q ([] : Heap Nat))
      ∧ ∀ i v, i < 2 →
          ptr_write (typed_alloc 2 ([] : Heap Nat)).2
              (typed_alloc 2 ([] : Heap Nat)).1 i v
            = some (((typed_alloc 2 ([] : Heap Nat)).1,
                (List.replicate 2 (none : Option Nat)).set i (some v)) :: [])
          ∧ ptr_read (((typed_alloc 2 ([] : Heap Nat)).1,
                (List.replicate 2 (none : Option Nat)).set i (some v)) :: [])
              (typed_alloc 2 ([] : Heap Nat)).1 i = some (some v)
          ∧ ∀ j, j < 2 → j ≠ i →
              ptr_read (((typed_alloc 2 ([] : Heap Nat)).1,
                  (List.replicate 2 (none : Option Nat)).set i (some v)) :: [])
                (typed_alloc 2 ([] : Heap Nat)).1 j = some none) :=
  ⟨by decide, typed_alloc_spec 2 ([] : Heap Nat) (by decide)⟩

/-- C6: `typed_dealloc` releases the block by letting a reconstructed
`Vec` of logical length 0 and capacity `old_size` drop; it runs no element
destructor and has no failure path, and an `allocate(n)` immediately
followed by `deallocate(ptr, n)` restores the allocator heap exactly. -/
theorem typed_dealloc_inverse_of_alloc (n : Nat) (h : Heap α) (hn : 1 ≤ n) :
    typed_dealloc (typed_alloc n h).1 n (typed_alloc n h).2 = (h, 0) := by
  simp [typed_dealloc, typed_alloc, ptr_from_vec, Vec.with_capacity,
    Vec.from_raw_parts, Vec.drop, hremove, hremove_freshAddr]

/-- C6 witness: allocate 3 slots in the empty heap, deallocate with
matching size: the heap is `[]` again and 0 element destructors ran. -/
theorem typed_dealloc_inverse_of_alloc_witness :
    (1 : Nat) ≤ 3
    ∧ typed_dealloc (typed_alloc 3 ([] : Heap Nat)).1 3
        (typed_alloc 3 ([] : Heap Nat)).2 = ([], 0) :=
  ⟨by decide, typed_dealloc_inverse_of_alloc 3 ([] : Heap Nat) (by decide)⟩

/-- C7: no operation returns an error or a null pointer to the caller:
`typed_alloc` always returns a non-null pointer (allocation in the model
always succeeds; the library aborts the process on OOM instead of
reporting it), and `typed_realloc` on a non-null live handle always
returns `some` non-null pointer, for every pair of sizes. -/
theorem memalloc_no_error_results (p old_size new_size : Nat) (h : Heap α)
    (hp : p ≠ 0) (hl : (hfind p h).isSome) :
    (∃ p2 h2, typed_realloc p old_size new_size h = some (p2, h2) ∧ p2 ≠ 0)
    ∧ ∀ size, (typed_alloc size h).1 ≠ 0 := by
  rcases Option.isSome_iff_exists.mp hl with ⟨d, hd⟩
  constructor
  · rcases Nat.lt_trichotomy old_size new_size with h1 | h1 | h1
    · have hng : ¬ old_size > new_size := by omega
      by_cases hc : new_size - old_size ≤ old_size
      · exact ⟨p, h, by
          simp [typed_realloc, hng, h1, Vec.reserve_exact, Vec.from_raw_parts,
            ptr_from_vec, hc], hp⟩
      · exact ⟨freshAddr h,
          (freshAddr h, resize_data d (new_size - old_size)) :: hremove p h, by
          simp [typed_realloc, hng, h1, Vec.reserve_exact, Vec.from_raw_parts,
            ptr_from_vec, hc, hd], freshAddr_ne_zero h⟩
    · subst h1
      exact ⟨p, h, by simp [typed_realloc], hp⟩
    · have hns : ¬ old_size ≤ new_size := by omega
      exact ⟨freshAddr h,
        (freshAddr h, resize_data d new_size) :: hremove p h, by
        simp [typed_realloc, h1, Vec.shrink_to_fit, Vec.from_raw_parts,
          ptr_from_vec, hns, hd], freshAddr_ne_zero h⟩
  · intro size
    simp [typed_alloc, ptr_from_vec, Vec.with_capacity, freshAddr]

/-- C7 witness: on the live 1-slot handle at address 1, growing to 2 slots
yields `some` non-null pointer, and allocation is non-null. -/
theorem memalloc_no_error_results_witness :
    (1 : Nat) ≠ 0
    ∧ (hfind 1 [(1, [(none : Option Nat)])]).isSome
    ∧ ((∃ p2 h2, typed_realloc 1 1 2 [(1, [(none : Option Nat)])]
          = some (p2, h2) ∧ p2 ≠ 0)
      ∧ ∀ size, (typed_alloc size [(1, [(none : Option Nat)])]).1 ≠ 0) :=
  ⟨by decide, by decide,
    memalloc_no_error_results 1 1 2 [(1, [none])] (by decide) (by decide)⟩

/-- C8 counterexample: the library does not provide `empty` — it is not
among the `pub fn` items of src/lib.rs (the whole definition is commented
out), so no `empty()` operation is exported. -/
theorem empty_not_exported : "empty" ∉ pub_fns := by
  decide

/-- C8 amended: `empty` exists only as commented-out code; that
commented-out definition (`1 as *mut u8`) is the fixed sentinel address 1,
which is non-null and heads no block of any heap reachable by the
operations (it reserves nothing), as witnessed in the empty heap. -/
theorem empty_commented_sentinel :
    "empty" ∉ pub_fns
    ∧ empty = 1
    ∧ empty ≠ 0
    ∧ hfind empty ([] : Heap Nat) = none := by
  decide

/-- C10: no operation runs the element destructor: the only `Vec` the
library ever lets drop (in `typed_dealloc`) has logical length 0, so 0
destructors run on every input; and the shrink path's `Vec`, whose logical
length `new_size` is nonzero, is disarmed by `ptr_from_vec` rather than
dropped — its storage stays live in the heap at the returned pointer. -/
theorem no_element_drops (p old_size new_size : Nat) (h : Heap α)
    (d : List (Option α)) (hon : new_size < old_size)
    (hd : hfind p h = some d) :
    (typed_dealloc p old_size h).2 = 0
    ∧ ∃ p2 h2, typed_realloc p old_size new_size h = some (p2, h2)
        ∧ hfind p2 h2 = some (resize_data d new_size) := by
  have hns : ¬ old_size ≤ new_size := by omega
  refine ⟨rfl, freshAddr h,
    (freshAddr h, resize_data d new_size) :: hremove p h, ?_, ?_⟩
  · simp [typed_realloc, hon, Vec.shrink_to_fit, Vec.from_raw_parts,
      ptr_from_vec, hns, hd]
  · simp [hfind]

/-- C10 witness: deallocating the 2-slot block at address 1 runs 0 element
destructors, and shrinking it to 1 slot keeps its storage live. -/
theorem no_element_drops_witness :
    (1 : Nat) < 2
    ∧ hfind 1 [(1, [some (3 : Nat), none])] = some [some 3, none]
    ∧ ((typed_dealloc 1 2 [(1, [some (3 : Nat), none])]).2 = 0
      ∧ ∃ p2 h2, typed_realloc 1 2 1 [(1, [some (3 : Nat), none])]
            = some (p2, h2)
          ∧ hfind p2 h2 = some (resize_data [some 3, none] 1)) :=
  ⟨by decide, by decide,
    no_element_drops 1 2 1 [(1, [some 3, none])] [some 3, none]
      (by decide) (by decide)⟩

end Memalloc
